import Mathlib

/-!
Shallow embedding of the GTaskScheduler core (src/scheduler.go, primary
variant, and src/unnamed/part_000 for `scheduleJobsFromFile`): the data
model, the cron parser of github.com/robfig/cron/v3 (standard 5-field
parser restricted to numeric fields, `*`/`?`, ranges, steps, comma lists
and the fixed `@`-descriptors; month/day names and `@every` are outside
the forms this development needs), the executor `job`, the status
recorder (`logJobStatus`, `logJobStatusToDB`), the HTTP handlers, and a
trace model of the global mutex `mu` guarding the durable-write path.
-/

namespace GTaskScheduler

/-- `JobStatus` from scheduler.go: one execution record as built by `job`. -/
structure JobStatus where
  uid : String
  command : String
  timestamp : String
  status : String
  output : String
deriving Repr, DecidableEq

/-- A row of the `tasks` table (`id` autoincrement, `task_uid` UNIQUE). -/
structure TaskRow where
  id : Nat
  task_uid : String
  command : String
  timestamp : String
  status : String
  output : String
deriving Repr, DecidableEq

/-- A row of the `jobs` table (`job_id` autoincrement, `job_name` UNIQUE,
`job_status` boolean, default 1 = active). Rows are never deleted, only
`job_status` is flipped. -/
structure JobRow where
  job_id : Nat
  job_name : String
  job_schedule : String
  job_command : String
  job_description : String
  added_at : String
  job_status : Bool
deriving Repr, DecidableEq

/-- The SQLite database state: both tables plus the autoincrement counters. -/
structure DBState where
  tasks : List TaskRow
  jobs : List JobRow
  nextTaskId : Nat
  nextJobId : Nat
deriving Repr, DecidableEq

/-- The global mutable state of scheduler.go: the log-file handle
(`none` models a nil `*os.File`, `some lines` the file contents), and the
database handle (`none` models a nil `*sql.DB`). -/
structure SystemState where
  logFile : Option (List String)
  db : Option DBState
deriving Repr, DecidableEq

/-! ## Cron expressions (github.com/robfig/cron/v3 standard parser) -/

/-- Split a character list at every separator character, keeping empty
pieces, `cur` being the (reversed) piece under construction. -/
def splitCharsAux (p : Char → Bool) (cur : List Char) : List Char → List (List Char)
  | [] => [cur.reverse]
  | c :: rest =>
    if p c then cur.reverse :: splitCharsAux p [] rest
    else splitCharsAux p (c :: cur) rest

/-- Split at every character satisfying `p`, keeping empty pieces — the
semantics of Go `strings.Split` for one-character separators. -/
def splitChars (p : Char → Bool) (cs : List Char) : List (List Char) :=
  splitCharsAux p [] cs

/-- Go `strings.Split s sep` for a one-character separator. -/
def strSplitOnChar (sep : Char) (s : String) : List String :=
  (splitChars (fun c => c = sep) s.data).map String.mk

/-- `strings.Fields`: split on whitespace runs, dropping empty pieces. -/
def goFields (s : String) : List String :=
  ((splitChars Char.isWhitespace s.data).map String.mk).filter (fun x => x ≠ "")

/-- Numeric field parsing (`strconv.Atoi` as robfig/cron uses it on cron
fields: a non-empty digit string; signs never pass the range checks). -/
def parseNat? (s : String) : Option Nat :=
  if s.data ≠ [] ∧ s.data.all Char.isDigit then
    some (s.data.foldl (fun n c => n * 10 + (c.toNat - 48)) 0)
  else none

/-- One parsed cron field: the star flag (set by `*`/`?` without a step
greater than 1, as in robfig/cron) and the set of matching values. -/
structure FieldBits where
  star : Bool
  vals : List Nat
deriving Repr, DecidableEq

/-- robfig/cron `getRange`: parse one range expression `*`, `N`, `A-B`,
optionally with `/step`, against the field bounds `lo..hi`.  `none` is a
parse error (malformed token or out-of-range value). -/
def getRange (lo hi : Nat) (expr : String) : Option FieldBits :=
  let rs := strSplitOnChar '/' expr
  let base? : Option (Bool × Nat × Nat × Bool) :=
    match rs.head? with
    | none => none
    | some r0 =>
      let lh := strSplitOnChar '-' r0
      match lh.head? with
      | none => none
      | some h =>
        if h = "*" ∨ h = "?" then some (true, lo, hi, lh.length = 1)
        else match parseNat? h with
          | none => none
          | some a =>
            match lh with
            | [_] => some (false, a, a, true)
            | [_, b] =>
              match parseNat? b with
              | none => none
              | some bv => some (false, a, bv, false)
            | _ => none
  match base? with
  | none => none
  | some (star, start, stop, singleDigit) =>
    let stepRes : Option (Nat × Nat × Bool) :=
      match rs with
      | [_] => some (1, stop, star)
      | [_, sp] =>
        match parseNat? sp with
        | none => none
        | some st => some (st, if singleDigit then hi else stop, if st > 1 then false else star)
      | _ => none
    match stepRes with
    | none => none
    | some (step, stop2, star2) =>
      if start < lo ∨ stop2 > hi ∨ start > stop2 ∨ step = 0 then none
      else some ⟨star2, (List.range (stop2 + 1)).filter (fun v => start ≤ v ∧ (v - start) % step = 0)⟩

/-- robfig/cron `getField`: a comma list of ranges (empty pieces are
dropped by `strings.FieldsFunc`); the union of the pieces. -/
def getField (lo hi : Nat) (field : String) : Option FieldBits :=
  let ranges := (strSplitOnChar ',' field).filter (fun x => x ≠ "")
  ranges.foldl
    (fun acc r =>
      match acc, getRange lo hi r with
      | some f, some g => some ⟨f.star ∨ g.star, f.vals ++ g.vals⟩
      | _, _ => none)
    (some ⟨false, []⟩)

/-- A parsed 5-field cron schedule (minute, hour, day-of-month, month,
day-of-week). -/
structure CronSchedule where
  minute : FieldBits
  hour : FieldBits
  dom : FieldBits
  month : FieldBits
  dow : FieldBits
deriving Repr, DecidableEq

/-- Parse an exactly-5-field cron spec with standard bounds
(0-59, 0-23, 1-31, 1-12, 0-6). -/
def parse5 (spec : String) : Option CronSchedule :=
  match goFields spec with
  | [mi, h, d, mo, dw] =>
    match getField 0 59 mi, getField 0 23 h, getField 1 31 d,
          getField 1 12 mo, getField 0 6 dw with
    | some a, some b, some c, some e, some f => some ⟨a, b, c, e, f⟩
    | _, _, _, _, _ => none
  | _ => none

/-- The standard parser used by `cron.New()`: fixed `@`-descriptors expand
to their 5-field equivalents, other `@`-strings are not modelled, anything
else must be exactly 5 fields. -/
def parseStandardSpec (spec : String) : Option CronSchedule :=
  if spec = "@yearly" ∨ spec = "@annually" then parse5 "0 0 1 1 *"
  else if spec = "@monthly" then parse5 "0 0 1 * *"
  else if spec = "@weekly" then parse5 "0 0 * * 0"
  else if spec = "@daily" ∨ spec = "@midnight" then parse5 "0 0 * * *"
  else if spec = "@hourly" then parse5 "0 * * * *"
  else if spec.data.head? = some '@' then none
  else parse5 spec

/-- Does `c.AddFunc spec f` succeed?  Exactly when the spec parses. -/
def cronValid (spec : String) : Bool :=
  (parseStandardSpec spec).isSome

/-- A minute-resolution wall-clock instant, the granularity of one tick. -/
structure CronTime where
  minute : Nat
  hour : Nat
  dom : Nat
  month : Nat
  dow : Nat
deriving Repr, DecidableEq

def fieldMatches (f : FieldBits) (v : Nat) : Bool :=
  f.vals.contains v

/-- robfig/cron `SpecSchedule` matching at an instant, including the
`dayMatches` rule: if either day field is a star both must match,
otherwise either day field matching suffices. -/
def cronMatches (s : CronSchedule) (t : CronTime) : Bool :=
  fieldMatches s.minute t.minute && fieldMatches s.hour t.hour &&
  fieldMatches s.month t.month &&
  (if s.dom.star || s.dow.star then
    fieldMatches s.dom t.dom && fieldMatches s.dow t.dow
  else
    fieldMatches s.dom t.dom || fieldMatches s.dow t.dow)

/-! ## Status recorder (`logJobStatus`, `logJobStatusToDB`) -/

/-- The line appended by `logJobStatus`: one summary line always, plus an
extended error block when the status is `"Failure"`. -/
def logLine (js : JobStatus) : String :=
  let base := "[" ++ js.timestamp ++ "] Status: " ++ js.status ++ ", Job UID: " ++ js.uid ++
    ", Command: " ++ js.command ++ "\n"
  if js.status = "Failure" then
    base ++ "[" ++ js.timestamp ++ "] Error Occured Status: " ++ js.status ++ ", Job UID: " ++
      js.uid ++ "\nCommand: " ++ js.command ++ ", Output: " ++ js.output ++ "\n"
  else base

/-- `logJobStatus`: under the mutex, return immediately if the log-file
handle is nil (no write, no terminal output); otherwise print the line
and append it to the log file.  The second component is the terminal
output (`fmt.Print` calls). -/
def logJobStatus (js : JobStatus) (s : SystemState) : SystemState × List String :=
  match s.logFile with
  | none => (s, [])
  | some f => ({ s with logFile := some (f ++ [logLine js]) }, [logLine js])

/-- `INSERT INTO tasks (task_uid, command, timestamp, status, output)`:
fails (`none`) when the UNIQUE constraint on `task_uid` is violated,
otherwise appends the row with the next autoincrement id. -/
def dbInsertTask (d : DBState) (js : JobStatus) : Option DBState :=
  if d.tasks.any (fun r => r.task_uid = js.uid) then none
  else some { d with
    tasks := d.tasks ++ [⟨d.nextTaskId, js.uid, js.command, js.timestamp, js.status, js.output⟩],
    nextTaskId := d.nextTaskId + 1 }

/-- `logJobStatusToDB`: under the mutex, return immediately if the
database handle is nil; otherwise insert the row, printing an error line
on insert failure or a debug line on success. -/
def logJobStatusToDB (js : JobStatus) (s : SystemState) : SystemState × List String :=
  match s.db with
  | none => (s, [])
  | some d =>
    match dbInsertTask d js with
    | none => (s, ["Error inserting into database"])
    | some d2 => ({ s with db := some d2 }, ["Inserted job status into database"])

/-! ## Executor (`job`) -/

/-- The outcome of `exec.Command("bash", "-c", command).CombinedOutput()`:
`none` models a spawn failure, `some code` a completed subprocess with
that exit status.  The Go `err` is non-nil exactly when the outcome is
not a clean exit 0. -/
def execFailed : Option Nat → Bool
  | some 0 => false
  | _ => true

/-- The single `JobStatus` record built by one run of `job`. -/
def jobStatusOf (command uid timestamp : String) (exit : Option Nat) (output : String) :
    JobStatus :=
  { uid := uid, command := command, timestamp := timestamp,
    status := if execFailed exit then "Failure" else "Success",
    output := output }

/-- `job`: run the command, build exactly one record, hand it to the DB
recorder and then the log recorder.  Total: every outcome, spawn failure
included, takes the same recording path. -/
def job (command uid timestamp : String) (exit : Option Nat) (output : String)
    (s : SystemState) : SystemState × List String :=
  let js := jobStatusOf command uid timestamp exit output
  let r1 := logJobStatusToDB js s
  let r2 := logJobStatus js r1.1
  (r2.1, r1.2 ++ r2.2)

/-! ## HTTP surface -/

/-- The responses the modelled handlers produce: a 200 body, a redirect
(`http.Redirect`, 303), an `http.Error` with its code, or the 400 form
re-render of `renderFormWithError` with its error message. -/
inductive HttpResp where
  | ok (body : String)
  | redirect (location : String)
  | httpError (code : Nat) (msg : String)
  | formError (msg : String)
deriving Repr, DecidableEq

/-- The body formatted by `downloadLogHandler` on a hit. -/
def logContent (r : TaskRow) : String :=
  "Task ID: " ++ r.task_uid ++ "\nCommand: " ++ r.command ++ "\nTimestamp: " ++ r.timestamp ++
    "\nStatus: " ++ r.status ++ "\n\nOutput:\n" ++ r.output ++ "\n"

/-- `SELECT task_uid, command, timestamp, status, output FROM tasks WHERE
task_uid = ?` via `QueryRow`: the first matching row, or `sql.ErrNoRows`. -/
def fetchTask (d : DBState) (uid : String) : Option TaskRow :=
  d.tasks.find? (fun r => r.task_uid = uid)

/-- `downloadLogHandler`: 400 on a missing `task_uid` parameter, 404 when
no row carries that uid (`sql.ErrNoRows`), otherwise the formatted record. -/
def downloadLogHandler (d : DBState) (taskID : String) : HttpResp :=
  if taskID = "" then .httpError 400 "Task ID not specified"
  else
    match fetchTask d taskID with
    | none => .httpError 404 "No log entries found for the specified task ID"
    | some r => .ok (logContent r)

/-! ## Job registry (`submitJobHandler`, `deleteJobHandler`,
`scheduleJobsFromTable`) and the armed set of the running cron -/

/-- `INSERT INTO jobs (job_name, job_schedule, job_command,
job_description, added_at)`: fails on the UNIQUE `job_name` constraint,
otherwise appends the row with `job_status` defaulting to 1 (active). -/
def dbInsertJob (d : DBState) (name sched cmd desc ts : String) : Option DBState :=
  if d.jobs.any (fun j => j.job_name = name) then none
  else some { d with
    jobs := d.jobs ++ [⟨d.nextJobId, name, sched, cmd, desc, ts, true⟩],
    nextJobId := d.nextJobId + 1 }

/-- Result of one `submitJobHandler` request: the database after the
request, the armed entries of the running cron instances (schedule,
command), the HTTP response, and the server-terminal output. -/
structure SubmitResult where
  db : DBState
  armed : List (String × String)
  resp : HttpResp
  terminal : List String
deriving Repr, DecidableEq

/-- `submitJobHandler` (scheduler.go primary variant): reject empty
fields; reject an existing `job_name` (`SELECT EXISTS ... WHERE job_name
= ?`, case-sensitive); otherwise insert the row, then try to arm the
command in a fresh cron instance — an `AddFunc` error is only printed to
the server terminal, and the handler redirects to `/` either way. -/
def submitJobHandler (d : DBState) (armed : List (String × String))
    (cronExpr command jobName jobDescription ts : String) : SubmitResult :=
  if cronExpr = "" ∨ command = "" ∨ jobName = "" ∨ jobDescription = "" then
    ⟨d, armed, .formError "Missing cron expression, command, job name, or job description", []⟩
  else if d.jobs.any (fun j => j.job_name = jobName) then
    ⟨d, armed, .formError "Job name already exists. Please enter a different unique job name.", []⟩
  else
    match dbInsertJob d jobName cronExpr command jobDescription ts with
    | none => ⟨d, armed, .formError "Error inserting job into database", []⟩
    | some d2 =>
      if cronValid cronExpr then
        ⟨d2, armed ++ [(cronExpr, command)], .redirect "/", []⟩
      else
        ⟨d2, armed, .redirect "/", ["Error scheduling new job"]⟩

/-- Result of one `deleteJobHandler` request. -/
structure DeleteResult where
  db : DBState
  armed : List (String × String)
  resp : HttpResp
deriving Repr, DecidableEq

/-- `deleteJobHandler`: `UPDATE jobs SET job_status = 0 WHERE job_id = ?`
(the form value is converted to the integer key by SQLite affinity) and a
redirect.  The handler has no reference to the running cron: the armed
set passes through untouched. -/
def deleteJobHandler (d : DBState) (armed : List (String × String)) (jobID : Option Nat) :
    DeleteResult :=
  match jobID with
  | none => ⟨d, armed, .httpError 400 "Job ID is required"⟩
  | some jid =>
    ⟨{ d with jobs := d.jobs.map (fun j =>
        if j.job_id = jid then { j with job_status := false } else j) },
      armed, .redirect "/"⟩

/-- `scheduleJobsFromTable`: `SELECT job_schedule, job_command FROM jobs
WHERE job_status = 1` in rowid order; each row is armed when its
expression parses, otherwise an error is printed and the row is skipped. -/
def scheduleJobsFromTable (d : DBState) : List (String × String) :=
  ((d.jobs.filter (fun j => j.job_status)).filter
    (fun j => cronValid j.job_schedule)).map (fun j => (j.job_schedule, j.job_command))

/-- One tick of the running cron: dispatch the command of every armed
entry whose schedule matches the current minute. -/
def tick (armed : List (String × String)) (t : CronTime) : List String :=
  armed.filterMap (fun e =>
    match parseStandardSpec e.1 with
    | some s => if cronMatches s t then some e.2 else none
    | none => none)

/-! ## Batch job source (`scheduleJobsFromFile`, src/unnamed/part_000) -/

/-- Loader state: armed entries, terminal output, and the scheduler-log
lines written for each processed line. -/
structure FileSchedState where
  armed : List (String × String)
  terminal : List String
  logLines : List String
deriving Repr, DecidableEq

/-- One loop iteration of `scheduleJobsFromFile`: fewer than 6
whitespace-separated fields is skipped with a per-line warning
(`continue`); otherwise the first 5 fields form the cron expression and
the rest the command, and the `AddFunc` outcome is printed and logged. -/
def processCronLine (st : FileSchedState) (line : String) : FileSchedState :=
  let parts := goFields line
  if parts.length < 6 then
    { st with terminal := st.terminal ++ ["Skipping invalid line: " ++ line] }
  else
    let cronExpr := String.intercalate " " (parts.take 5)
    let command := String.intercalate " " (parts.drop 5)
    if cronValid cronExpr then
      let msg := "Scheduled job: " ++ command ++ " with cron expression: " ++ cronExpr
      { armed := st.armed ++ [(cronExpr, command)],
        terminal := st.terminal ++ [msg], logLines := st.logLines ++ [msg] }
    else
      let msg := "Error scheduling job"
      { st with terminal := st.terminal ++ [msg], logLines := st.logLines ++ [msg] }

/-- `scheduleJobsFromFile` over the lines of the batch source file. -/
def scheduleJobsFromFile (lines : List String) : FileSchedState :=
  lines.foldl processCronLine ⟨[], [], []⟩

/-- The contribution of a single source line on its own: `none` for a
skipped or unschedulable line, `some (expr, cmd)` for an armed one. -/
def lineArm (line : String) : Option (String × String) :=
  let parts := goFields line
  if parts.length < 6 then none
  else
    let cronExpr := String.intercalate " " (parts.take 5)
    let command := String.intercalate " " (parts.drop 5)
    if cronValid cronExpr then some (cronExpr, command) else none

/-- Is this line skipped with the per-line warning? -/
def lineMalformed (line : String) : Bool :=
  (goFields line).length < 6

/-- The one terminal message each processed source line produces: the
per-line skip warning, the scheduling confirmation, or the `AddFunc`
error report. -/
def lineMsg (line : String) : String :=
  let parts := goFields line
  if parts.length < 6 then "Skipping invalid line: " ++ line
  else
    let cronExpr := String.intercalate " " (parts.take 5)
    let command := String.intercalate " " (parts.drop 5)
    if cronValid cronExpr then
      "Scheduled job: " ++ command ++ " with cron expression: " ++ cronExpr
    else "Error scheduling job"

/-! ## Status query service (`distinctCommandsHandler` aggregation SQL) -/

/-- Lexicographic order on character lists by code point — the order
SQLite's BINARY collation gives TEXT values (UTF-8 byte order coincides
with code-point order). -/
def charListLt : List Char → List Char → Bool
  | [], [] => false
  | [], _ :: _ => true
  | _ :: _, [] => false
  | a :: as, b :: bs =>
    if a.toNat < b.toNat then true
    else if b.toNat < a.toNat then false
    else charListLt as bs

/-- `strLt a b`: the TEXT value `a` sorts strictly before `b` under the
BINARY collation. -/
def strLt (a b : String) : Bool :=
  charListLt a.data b.data

/-- One output row of `SELECT command, task_uid, MAX(timestamp) AS
last_run, SUM(CASE WHEN status = 'Success' ...), SUM(CASE WHEN status =
'Failure' ...), output FROM tasks GROUP BY command ORDER BY last_run
DESC`. -/
structure SummaryRow where
  command : String
  task_uid : String
  last_run : String
  success_count : Nat
  failure_count : Nat
  output : String
deriving Repr, DecidableEq

/-- The distinct command texts, in first-appearance order (the GROUP BY
keys). -/
def distinctCommands (ts : List TaskRow) : List String :=
  ts.foldl (fun acc r => if r.command ∈ acc then acc else acc ++ [r.command]) []

/-- Keep the row with the larger `timestamp` (TEXT comparison, first one
on ties). -/
def bestRowStep (acc : Option TaskRow) (r : TaskRow) : Option TaskRow :=
  match acc with
  | none => some r
  | some b => if strLt b.timestamp r.timestamp then some r else some b

/-- The row SQLite takes the bare columns `task_uid` and `output` from:
with a single `MAX` aggregate, a row achieving the maximal `timestamp`
(TEXT comparison under the BINARY collation; the first such row on ties). -/
def bestRow (rows : List TaskRow) : Option TaskRow :=
  rows.foldl bestRowStep none

/-- The aggregate row for one command group. -/
def summaryFor (ts : List TaskRow) (cmd : String) : SummaryRow :=
  let rows := ts.filter (fun r => r.command = cmd)
  match bestRow rows with
  | none => ⟨cmd, "", "", 0, 0, ""⟩
  | some b =>
    ⟨cmd, b.task_uid, b.timestamp,
      rows.countP (fun r => r.status = "Success"),
      rows.countP (fun r => r.status = "Failure"),
      b.output⟩

/-- Insert into a list kept in descending `last_run` (TEXT) order. -/
def insertByLastRunDesc (x : SummaryRow) : List SummaryRow → List SummaryRow
  | [] => [x]
  | y :: ys =>
    if strLt y.last_run x.last_run then x :: y :: ys else y :: insertByLastRunDesc x ys

/-- `ORDER BY last_run DESC` over the group rows. -/
def sortByLastRunDesc (l : List SummaryRow) : List SummaryRow :=
  l.foldr insertByLastRunDesc []

/-- The result sequence of the aggregation query in
`distinctCommandsHandler`: one row per distinct command, ordered by the
`last_run` string descending. -/
def summarize (ts : List TaskRow) : List SummaryRow :=
  sortByLastRunDesc ((distinctCommands ts).map (summaryFor ts))

/-- Modelled from the spec: the chronological instant denoted by a
timestamp string in the Go layout `"02-01-2006 15:04:05"`
(day-month-year, then hour-minute-second), as a single comparable
number.  The code never computes this; it is the yardstick the claim
about chronological ordering is measured against. -/
def chronoVal (s : String) : Nat :=
  let num := fun (cs : List Char) => (parseNat? (String.mk cs)).getD 0
  let d := num (s.data.take 2)
  let mo := num ((s.data.drop 3).take 2)
  let y := num ((s.data.drop 6).take 4)
  let h := num ((s.data.drop 11).take 2)
  let mi := num ((s.data.drop 14).take 2)
  let sec := num ((s.data.drop 17).take 2)
  ((((y * 12 + mo) * 31 + d) * 24 + h) * 60 + mi) * 60 + sec

/-! ## The global mutex `mu` guarding the durable-write path

`logJobStatus` and `logJobStatusToDB` both take the one global
`sync.Mutex` `mu` for the whole duration of their sink write.  The model:
an append-only sink (`List α`: log-file chunks when `α = String`, table
rows when `α = TaskRow`) written by concurrently running recorder
threads, with the lock discipline as a step relation over event traces.
A thread may write only while holding the lock, so a valid trace is
forced into whole acquire-write-release sessions. -/

/-- One event of a recorder thread against the shared sink. -/
inductive SinkEvent (α : Type) where
  | acquire (t : Nat)
  | write (t : Nat) (chunk : α)
  | release (t : Nat)
deriving Repr, DecidableEq

/-- The `sync.Mutex` discipline: acquiring requires the lock free;
writing and releasing require holding it.  `none` is a forbidden step. -/
def sinkStep {α : Type} : Option Nat × List α → SinkEvent α → Option (Option Nat × List α)
  | (none, f), .acquire t => some (some t, f)
  | (some _, _), .acquire _ => none
  | (some t, f), .write u c => if u = t then some (some t, f ++ [c]) else none
  | (none, _), .write _ _ => none
  | (some t, f), .release u => if u = t then some (none, f) else none
  | (none, _), .release _ => none

/-- Run a whole event trace under the lock discipline. -/
def runSink {α : Type} (st : Option Nat × List α) : List (SinkEvent α) →
    Option (Option Nat × List α)
  | [] => some st
  | e :: es =>
    match sinkStep st e with
    | none => none
    | some st2 => runSink st2 es

/-- The trace of one complete critical section: thread `s.1` acquires,
writes its chunks `s.2`, releases. -/
def sessionTrace {α : Type} (s : Nat × List α) : List (SinkEvent α) :=
  .acquire s.1 :: (s.2.map (SinkEvent.write s.1) ++ [.release s.1])

/-- A sequence of complete, non-overlapping critical sections. -/
def sessionsTrace {α : Type} (ss : List (Nat × List α)) : List (SinkEvent α) :=
  (ss.map sessionTrace).flatten

/-! ## Helper lemmas -/

theorem logJobStatus_db (js : JobStatus) (s : SystemState) :
    ((logJobStatus js s).1).db = s.db := by
  cases h : s.logFile <;> simp [logJobStatus, h]

theorem logJobStatus_logFile (js : JobStatus) (s : SystemState) :
    ((logJobStatus js s).1).logFile = s.logFile.map (fun f => f ++ [logLine js]) := by
  cases h : s.logFile <;> simp [logJobStatus, h]

theorem logJobStatusToDB_logFile (js : JobStatus) (s : SystemState) :
    ((logJobStatusToDB js s).1).logFile = s.logFile := by
  cases h : s.db with
  | none => simp [logJobStatusToDB, h]
  | some d => cases h2 : dbInsertTask d js <;> simp [logJobStatusToDB, h, h2]

theorem status_success_iff (exit : Option Nat) :
    (if execFailed exit then "Failure" else "Success") = "Success" ↔ exit = some 0 := by
  cases exit with
  | none => simp [execFailed]
  | some n => cases n with
    | zero => simp [execFailed]
    | succ m => simp [execFailed]

/-! ## Claim theorems -/

/-- C1: every run of the executor `job` appends exactly one
`ExecutionRecord` to the tasks table (given a live database handle and a
fresh uid, as `uuid.New` provides), appends exactly one line to the log
sink when it is live, its status is `"Success"` iff the subprocess exited
with status 0 and `"Failure"` otherwise — spawn failure (`exit = none`)
included — and every outcome takes this same total recording path: no
error is propagated out of `job`. -/
theorem job_produces_exactly_one_record
    (command uid timestamp : String) (exit : Option Nat) (output : String)
    (s : SystemState) (d : DBState)
    (hdb : s.db = some d)
    (hfresh : ∀ r ∈ d.tasks, r.task_uid ≠ uid) :
    ∃ d2 : DBState,
      (job command uid timestamp exit output s).1.db = some d2 ∧
      d2.tasks = d.tasks ++
        [⟨d.nextTaskId, uid, command, timestamp,
          if execFailed exit then "Failure" else "Success", output⟩] ∧
      (job command uid timestamp exit output s).1.logFile =
        s.logFile.map (fun f => f ++ [logLine (jobStatusOf command uid timestamp exit output)]) ∧
      ((jobStatusOf command uid timestamp exit output).status = "Success" ↔ exit = some 0) := by
  have hany : d.tasks.any (fun r => r.task_uid = uid) = false := by
    rw [List.any_eq_false]
    intro r hr
    simp [hfresh r hr]
  have hins : dbInsertTask d (jobStatusOf command uid timestamp exit output) =
      some { d with
        tasks := d.tasks ++
          [⟨d.nextTaskId, uid, command, timestamp,
            if execFailed exit then "Failure" else "Success", output⟩],
        nextTaskId := d.nextTaskId + 1 } := by
    simp [dbInsertTask, jobStatusOf, hany]
  refine ⟨{ d with
      tasks := d.tasks ++
        [⟨d.nextTaskId, uid, command, timestamp,
          if execFailed exit then "Failure" else "Success", output⟩],
      nextTaskId := d.nextTaskId + 1 }, ?_, rfl, ?_, ?_⟩
  · show ((logJobStatus _ (logJobStatusToDB _ s).1).1).db = _
    rw [logJobStatus_db]
    simp [logJobStatusToDB, hdb, hins]
  · show ((logJobStatus _ (logJobStatusToDB _ s).1).1).logFile = _
    rw [logJobStatus_logFile, logJobStatusToDB_logFile]
  · exact status_success_iff exit

/-- Witness for C1 at a concrete failing command (exit 1). -/
theorem job_produces_exactly_one_record_witness :
    (⟨some [], some ⟨[], [], 1, 1⟩⟩ : SystemState).db = some ⟨[], [], 1, 1⟩ ∧
    ∃ d2 : DBState,
      (job "exit 1" "u1" "t1" (some 1) "" ⟨some [], some ⟨[], [], 1, 1⟩⟩).1.db = some d2 ∧
      d2.tasks = [] ++ [⟨1, "u1", "exit 1", "t1",
        if execFailed (some 1) then "Failure" else "Success", ""⟩] ∧
      (job "exit 1" "u1" "t1" (some 1) "" ⟨some [], some ⟨[], [], 1, 1⟩⟩).1.logFile =
        (some [] : Option (List String)).map
          (fun f => f ++ [logLine (jobStatusOf "exit 1" "u1" "t1" (some 1) "")]) ∧
      ((jobStatusOf "exit 1" "u1" "t1" (some 1) "").status = "Success" ↔ some 1 = some 0) :=
  ⟨rfl, job_produces_exactly_one_record "exit 1" "u1" "t1" (some 1) ""
    ⟨some [], some ⟨[], [], 1, 1⟩⟩ ⟨[], [], 1, 1⟩ rfl (by intro r hr; simp at hr)⟩

/-- C10: with a nil log-file handle `logJobStatus` returns without
writing anything anywhere and without reporting any error, and with a nil
database handle `logJobStatusToDB` likewise returns silently: the record
is dropped from that sink with no persistence error raised or logged. -/
theorem nil_sink_silent_drop (js : JobStatus) (s s2 : SystemState)
    (hlog : s.logFile = none) (hdb : s2.db = none) :
    logJobStatus js s = (s, []) ∧ logJobStatusToDB js s2 = (s2, []) := by
  constructor
  · simp [logJobStatus, hlog]
  · simp [logJobStatusToDB, hdb]

/-- Witness for C10 on a fully uninitialized system state. -/
theorem nil_sink_silent_drop_witness :
    (⟨none, some ⟨[], [], 1, 1⟩⟩ : SystemState).logFile = none ∧
    (⟨some [], none⟩ : SystemState).db = none ∧
    (logJobStatus ⟨"u", "c", "t", "Success", "o"⟩ ⟨none, some ⟨[], [], 1, 1⟩⟩ =
      (⟨none, some ⟨[], [], 1, 1⟩⟩, []) ∧
     logJobStatusToDB ⟨"u", "c", "t", "Success", "o"⟩ ⟨some [], none⟩ = (⟨some [], none⟩, [])) :=
  ⟨rfl, rfl, nil_sink_silent_drop ⟨"u", "c", "t", "Success", "o"⟩
    ⟨none, some ⟨[], [], 1, 1⟩⟩ ⟨some [], none⟩ rfl rfl⟩

/-- C6: after a successful `record()` (a task-table insert that the
UNIQUE `task_uid` constraint accepted), `fetch(uid)` returns a row whose
`command`, `status` and `output` are identical to the recorded values. -/
theorem record_fetch_roundtrip (d d2 : DBState) (js : JobStatus)
    (h : dbInsertTask d js = some d2) :
    ∃ r : TaskRow, fetchTask d2 js.uid = some r ∧
      r.command = js.command ∧ r.status = js.status ∧ r.output = js.output := by
  unfold dbInsertTask at h
  by_cases hany : d.tasks.any (fun r => r.task_uid = js.uid)
  · simp [hany] at h
  · simp only [hany, if_neg, Bool.false_eq_true, not_false_eq_true, if_false,
      Option.some.injEq] at h
    refine ⟨⟨d.nextTaskId, js.uid, js.command, js.timestamp, js.status, js.output⟩, ?_, rfl, rfl, rfl⟩
    have hany2 : d.tasks.any (fun r => r.task_uid = js.uid) = false := by
      simpa using hany
    have hnone : d.tasks.find? (fun r => r.task_uid = js.uid) = none := by
      rw [List.find?_eq_none]
      intro r hr
      simpa using List.any_eq_false.mp hany2 r hr
    unfold fetchTask
    rw [← h]
    simp [List.find?_append, hnone]

/-- Witness for C6: record one row into an empty store and fetch it back. -/
theorem record_fetch_roundtrip_witness :
    dbInsertTask ⟨[], [], 1, 1⟩ ⟨"u1", "echo ok", "t1", "Success", "ok"⟩ =
      some ⟨[⟨1, "u1", "echo ok", "t1", "Success", "ok"⟩], [], 2, 1⟩ ∧
    ∃ r : TaskRow,
      fetchTask ⟨[⟨1, "u1", "echo ok", "t1", "Success", "ok"⟩], [], 2, 1⟩ "u1" = some r ∧
      r.command = "echo ok" ∧ r.status = "Success" ∧ r.output = "ok" :=
  ⟨by decide, record_fetch_roundtrip ⟨[], [], 1, 1⟩
    ⟨[⟨1, "u1", "echo ok", "t1", "Success", "ok"⟩], [], 2, 1⟩
    ⟨"u1", "echo ok", "t1", "Success", "ok"⟩ (by decide)⟩

/-- C7: `downloadLogHandler` (for a non-empty uid, the only case in which
the lookup runs — an empty parameter is rejected as 400 before any
lookup): when no row carries the uid the result is the 404 NotFound
response, not a 500 fault; when some row carries it the fetch succeeds
with the formatted record. -/
theorem fetch_notfound_or_success (d : DBState) (uid : String) (hne : uid ≠ "") :
    ((∀ r ∈ d.tasks, r.task_uid ≠ uid) →
      downloadLogHandler d uid = .httpError 404 "No log entries found for the specified task ID") ∧
    (∀ r : TaskRow, fetchTask d uid = some r → downloadLogHandler d uid = .ok (logContent r)) := by
  constructor
  · intro habs
    have hnone : fetchTask d uid = none := by
      unfold fetchTask
      rw [List.find?_eq_none]
      intro r hr
      simpa using habs r hr
    simp [downloadLogHandler, hne, hnone]
  · intro r hr
    simp [downloadLogHandler, hne, hr]

/-- Witness for C7: a miss on an empty store and a hit on a one-row store. -/
theorem fetch_notfound_or_success_witness :
    ("nope" : String) ≠ "" ∧
    (((∀ r ∈ (⟨[], [], 1, 1⟩ : DBState).tasks, r.task_uid ≠ "nope") →
      downloadLogHandler ⟨[], [], 1, 1⟩ "nope" =
        .httpError 404 "No log entries found for the specified task ID") ∧
     (∀ r : TaskRow, fetchTask ⟨[], [], 1, 1⟩ "nope" = some r →
      downloadLogHandler ⟨[], [], 1, 1⟩ "nope" = .ok (logContent r))) :=
  ⟨by decide, fetch_notfound_or_success ⟨[], [], 1, 1⟩ "nope" (by decide)⟩

/-- C2: submitting a job whose `job_name` already exists (string-equal,
hence case-sensitive; rows are never physically deleted, so all
definitions are non-deleted) fails with a form error and leaves the whole
registry state untouched: same database, same armed set, and in
particular the same job count. -/
theorem submit_duplicate_name_fails_unchanged
    (d : DBState) (armed : List (String × String))
    (cronExpr command jobName jobDescription ts : String)
    (hdup : ∃ j ∈ d.jobs, j.job_name = jobName) :
    (submitJobHandler d armed cronExpr command jobName jobDescription ts).db = d ∧
    (submitJobHandler d armed cronExpr command jobName jobDescription ts).armed = armed ∧
    (∃ msg, (submitJobHandler d armed cronExpr command jobName jobDescription ts).resp =
      .formError msg) ∧
    (submitJobHandler d armed cronExpr command jobName jobDescription ts).db.jobs.length =
      d.jobs.length := by
  have hany : d.jobs.any (fun j => j.job_name = jobName) = true := by
    rcases hdup with ⟨j, hj, hname⟩
    exact List.any_eq_true.mpr ⟨j, hj, by simp [hname]⟩
  by_cases hempty : cronExpr = "" ∨ command = "" ∨ jobName = "" ∨ jobDescription = ""
  · simp [submitJobHandler, hempty]
  · simp [submitJobHandler, hempty, hany]

/-- Witness for C2: re-registering the name `"ping"` fails and changes
nothing. -/
theorem submit_duplicate_name_fails_unchanged_witness :
    (∃ j ∈ (⟨[], [⟨1, "ping", "* * * * *", "echo ok", "d", "t", true⟩], 1, 2⟩ : DBState).jobs,
      j.job_name = "ping") ∧
    ((submitJobHandler ⟨[], [⟨1, "ping", "* * * * *", "echo ok", "d", "t", true⟩], 1, 2⟩ []
        "0 0 * * *" "echo two" "ping" "dup" "t2").db =
      ⟨[], [⟨1, "ping", "* * * * *", "echo ok", "d", "t", true⟩], 1, 2⟩ ∧
     (submitJobHandler ⟨[], [⟨1, "ping", "* * * * *", "echo ok", "d", "t", true⟩], 1, 2⟩ []
        "0 0 * * *" "echo two" "ping" "dup" "t2").armed = [] ∧
     (∃ msg, (submitJobHandler ⟨[], [⟨1, "ping", "* * * * *", "echo ok", "d", "t", true⟩], 1, 2⟩ []
        "0 0 * * *" "echo two" "ping" "dup" "t2").resp = .formError msg) ∧
     (submitJobHandler ⟨[], [⟨1, "ping", "* * * * *", "echo ok", "d", "t", true⟩], 1, 2⟩ []
        "0 0 * * *" "echo two" "ping" "dup" "t2").db.jobs.length =
      (⟨[], [⟨1, "ping", "* * * * *", "echo ok", "d", "t", true⟩], 1, 2⟩ : DBState).jobs.length) :=
  ⟨⟨⟨1, "ping", "* * * * *", "echo ok", "d", "t", true⟩, by decide, rfl⟩,
    submit_duplicate_name_fails_unchanged
      ⟨[], [⟨1, "ping", "* * * * *", "echo ok", "d", "t", true⟩], 1, 2⟩ []
      "0 0 * * *" "echo two" "ping" "dup" "t2"
      ⟨⟨1, "ping", "* * * * *", "echo ok", "d", "t", true⟩, by decide, rfl⟩⟩

theorem filter_status_disable (jobs : List JobRow) (jid : Nat) :
    ((jobs.map (fun j => if j.job_id = jid then { j with job_status := false } else j)).filter
      (fun j => j.job_status)) =
    ((jobs.filter (fun j => j.job_id ≠ jid)).filter (fun j => j.job_status)) := by
  induction jobs with
  | nil => rfl
  | cons a l ih =>
    by_cases h : a.job_id = jid
    · simp [h, ih]
    · by_cases hs : a.job_status
      · simp [List.filter_cons, h, hs, ih]
      · simp [List.filter_cons, h, hs, ih]

/-- C3 counterexample: arm the single active job `"ping"` from the table
(the reconciliation `main` performs at startup), then disable it through
`deleteJobHandler`.  The registry now has no active job, yet the armed
set of the running clock still holds the entry, and the very next
matching tick still dispatches `"echo ok"` — the claim that after
`disable` the job is absent from the clock's set and not dispatched
without a restart is false. -/
theorem disable_still_dispatched_counterexample :
    scheduleJobsFromTable ⟨[], [⟨1, "ping", "* * * * *", "echo ok", "d", "t", true⟩], 1, 2⟩ =
      [("* * * * *", "echo ok")] ∧
    (deleteJobHandler ⟨[], [⟨1, "ping", "* * * * *", "echo ok", "d", "t", true⟩], 1, 2⟩
        [("* * * * *", "echo ok")] (some 1)).db.jobs.filter (fun j => j.job_status) = [] ∧
    (deleteJobHandler ⟨[], [⟨1, "ping", "* * * * *", "echo ok", "d", "t", true⟩], 1, 2⟩
        [("* * * * *", "echo ok")] (some 1)).armed = [("* * * * *", "echo ok")] ∧
    tick (deleteJobHandler ⟨[], [⟨1, "ping", "* * * * *", "echo ok", "d", "t", true⟩], 1, 2⟩
        [("* * * * *", "echo ok")] (some 1)).armed ⟨0, 0, 1, 1, 0⟩ = ["echo ok"] := by decide

/-- C3 amended: `disable(id)` marks the job inactive in the registry, so
the job is excluded from the next reconciliation
(`scheduleJobsFromTable`, which runs only at process startup) exactly as
if its rows were absent; but the handler never touches the running
clock, so the armed set — and hence what every future tick dispatches —
is unchanged until the process restarts. -/
theorem disable_unarms_only_after_restart
    (d : DBState) (armed : List (String × String)) (jid : Nat) :
    (deleteJobHandler d armed (some jid)).armed = armed ∧
    (∀ t : CronTime, tick (deleteJobHandler d armed (some jid)).armed t = tick armed t) ∧
    (∀ j ∈ (deleteJobHandler d armed (some jid)).db.jobs, j.job_id = jid → j.job_status = false) ∧
    scheduleJobsFromTable (deleteJobHandler d armed (some jid)).db =
      scheduleJobsFromTable ⟨d.tasks, d.jobs.filter (fun j => j.job_id ≠ jid),
        d.nextTaskId, d.nextJobId⟩ := by
  refine ⟨rfl, fun t => rfl, ?_, ?_⟩
  · intro j hj hid
    simp only [deleteJobHandler, List.mem_map] at hj
    rcases hj with ⟨j0, _, hj0⟩
    by_cases h : j0.job_id = jid
    · rw [← hj0]; simp [h]
    · rw [← hj0] at hid ⊢
      simp [h] at hid
  · show (((deleteJobHandler d armed (some jid)).db.jobs.filter _).filter _).map _ = _
    unfold scheduleJobsFromTable deleteJobHandler
    simp only
    rw [filter_status_disable]

/-- C4 counterexample: submitting the malformed expression
`"61 * * * *"` (minute out of range, so `AddFunc` fails) nevertheless
inserts the definition into the jobs table and answers the caller with
the same success redirect as a valid submission; the error text exists
only on the server terminal.  The claim that registration fails, reports
the error synchronously to the caller, and does not persist the
definition is false — only "never armed" holds. -/
theorem malformed_cron_counterexample :
    cronValid "61 * * * *" = false ∧
    (submitJobHandler ⟨[], [], 1, 1⟩ [] "61 * * * *" "echo ok" "j1" "d" "t").resp =
      .redirect "/" ∧
    (submitJobHandler ⟨[], [], 1, 1⟩ [] "61 * * * *" "echo ok" "j1" "d" "t").db.jobs =
      [⟨1, "j1", "61 * * * *", "echo ok", "d", "t", true⟩] ∧
    (submitJobHandler ⟨[], [], 1, 1⟩ [] "61 * * * *" "echo ok" "j1" "d" "t").armed = [] := by
  decide

/-- C4 amended: a registration whose cron expression is malformed (any
expression `AddFunc` rejects: wrong field count or out-of-range values
included) is never armed into the clock, but the definition is persisted
into the jobs table before scheduling is attempted, the descriptive
error is printed only to the server terminal, and the caller receives
the ordinary success redirect instead of a synchronous error. -/
theorem malformed_cron_persisted_unarmed
    (d : DBState) (armed : List (String × String))
    (cronExpr command jobName jobDescription ts : String)
    (h1 : ¬(cronExpr = "" ∨ command = "" ∨ jobName = "" ∨ jobDescription = ""))
    (h2 : ∀ j ∈ d.jobs, j.job_name ≠ jobName)
    (hbad : cronValid cronExpr = false) :
    submitJobHandler d armed cronExpr command jobName jobDescription ts =
      ⟨{ d with
          jobs := d.jobs ++ [⟨d.nextJobId, jobName, cronExpr, command, jobDescription, ts, true⟩],
          nextJobId := d.nextJobId + 1 },
        armed, .redirect "/", ["Error scheduling new job"]⟩ := by
  have hany : d.jobs.any (fun j => j.job_name = jobName) = false := by
    rw [List.any_eq_false]
    intro j hj
    simp [h2 j hj]
  simp [submitJobHandler, h1, hany, dbInsertJob, hbad]

/-- Witness for the amended C4 at the counterexample input. -/
theorem malformed_cron_persisted_unarmed_witness :
    (¬(("61 * * * *" : String) = "" ∨ ("echo ok" : String) = "" ∨ ("j1" : String) = "" ∨
        ("d" : String) = "")) ∧
    cronValid "61 * * * *" = false ∧
    submitJobHandler ⟨[], [], 1, 1⟩ [] "61 * * * *" "echo ok" "j1" "d" "t" =
      ⟨⟨[], [⟨1, "j1", "61 * * * *", "echo ok", "d", "t", true⟩], 1, 2⟩,
        [], .redirect "/", ["Error scheduling new job"]⟩ :=
  ⟨by decide, by decide,
    malformed_cron_persisted_unarmed ⟨[], [], 1, 1⟩ [] "61 * * * *" "echo ok" "j1" "d" "t"
      (by decide) (by intro j hj; simp at hj) (by decide)⟩

theorem processCronLine_armed (st : FileSchedState) (line : String) :
    (processCronLine st line).armed = st.armed ++ (lineArm line).toList ∧
    (processCronLine st line).terminal = st.terminal ++ [lineMsg line] := by
  unfold processCronLine lineArm lineMsg
  by_cases h1 : (goFields line).length < 6
  · simp [h1]
  · by_cases h2 : cronValid (String.intercalate " " ((goFields line).take 5))
    · simp [h1, h2]
    · simp [h1, h2]

theorem foldl_processCronLine (lines : List String) (st : FileSchedState) :
    (lines.foldl processCronLine st).armed = st.armed ++ lines.filterMap lineArm ∧
    (lines.foldl processCronLine st).terminal = st.terminal ++ lines.map lineMsg := by
  induction lines generalizing st with
  | nil => simp
  | cons l ls ih =>
    simp only [List.foldl_cons, List.map_cons]
    rcases ih (processCronLine st l) with ⟨ha, ht⟩
    rcases processCronLine_armed st l with ⟨ha0, ht0⟩
    constructor
    · rw [ha, ha0, List.filterMap_cons]
      cases h : lineArm l <;> simp [h]
    · rw [ht, ht0]
      simp

/-- C8: loading a batch job-source file is line-independent: the armed
result is exactly the per-line contributions of the well-formed lines
(`lines.filterMap lineArm`), so a malformed line never prevents any
later well-formed line from being loaded and scheduled, and the terminal
output carries exactly one message per line — the skip warning for each
malformed line included. -/
theorem batch_loader_line_independent (lines : List String) :
    (scheduleJobsFromFile lines).armed = lines.filterMap lineArm ∧
    (scheduleJobsFromFile lines).terminal = lines.map lineMsg ∧
    ∀ line ∈ lines, lineMalformed line → lineMsg line = "Skipping invalid line: " ++ line := by
  refine ⟨?_, ?_, ?_⟩
  · simpa using (foldl_processCronLine lines ⟨[], [], []⟩).1
  · simpa using (foldl_processCronLine lines ⟨[], [], []⟩).2
  · intro line _ hmal
    unfold lineMalformed at hmal
    have h6 : (goFields line).length < 6 := by simpa using hmal
    unfold lineMsg
    simp [h6]

theorem charListLt_irrefl (a : List Char) : charListLt a a = false := by
  induction a with
  | nil => rfl
  | cons c cs ih => simp [charListLt, ih]

theorem charListLt_trans (a : List Char) : ∀ b c : List Char,
    charListLt a b = true → charListLt b c = true → charListLt a c = true := by
  induction a with
  | nil =>
    intro b c h1 h2
    cases b with
    | nil => simp [charListLt] at h1
    | cons d ds =>
      cases c with
      | nil => simp [charListLt] at h2
      | cons e es => rfl
  | cons x xs ih =>
    intro b c h1 h2
    cases b with
    | nil => simp [charListLt] at h1
    | cons d ds =>
      cases c with
      | nil => simp [charListLt] at h2
      | cons e es =>
        by_cases hxd : x.toNat < d.toNat
        · by_cases hde : d.toNat < e.toNat
          · have hxe : x.toNat < e.toNat := by omega
            simp [charListLt, hxe]
          · by_cases hed : e.toNat < d.toNat
            · simp [charListLt, hde, hed] at h2
            · have hxe : x.toNat < e.toNat := by omega
              simp [charListLt, hxe]
        · by_cases hdx : d.toNat < x.toNat
          · simp [charListLt, hxd, hdx] at h1
          · have hrec1 : charListLt xs ds = true := by
              simpa [charListLt, hxd, hdx] using h1
            by_cases hde : d.toNat < e.toNat
            · have hxe : x.toNat < e.toNat := by omega
              simp [charListLt, hxe]
            · by_cases hed : e.toNat < d.toNat
              · simp [charListLt, hde, hed] at h2
              · have hrec2 : charListLt ds es = true := by
                  simpa [charListLt, hde, hed] using h2
                have hxe : ¬ x.toNat < e.toNat := by omega
                have hex : ¬ e.toNat < x.toNat := by omega
                simp [charListLt, hxe, hex, ih ds es hrec1 hrec2]

theorem charListLt_of_lt_of_nlt (x : List Char) : ∀ z y : List Char,
    charListLt x z = true → charListLt y z = false → charListLt x y = true := by
  induction x with
  | nil =>
    intro z y h1 h2
    cases z with
    | nil => simp [charListLt] at h1
    | cons c cs =>
      cases y with
      | nil => simp [charListLt] at h2
      | cons d ds => rfl
  | cons a as ih =>
    intro z y h1 h2
    cases z with
    | nil => simp [charListLt] at h1
    | cons c cs =>
      cases y with
      | nil => simp [charListLt] at h2
      | cons d ds =>
        by_cases hdc : d.toNat < c.toNat
        · simp [charListLt, hdc] at h2
        · by_cases hac : a.toNat < c.toNat
          · by_cases hcd : c.toNat < d.toNat
            · have had : a.toNat < d.toNat := by omega
              simp [charListLt, had]
            · have had : a.toNat < d.toNat := by omega
              simp [charListLt, had]
          · by_cases hca : c.toNat < a.toNat
            · simp [charListLt, hac, hca] at h1
            · have hrec1 : charListLt as cs = true := by
                simpa [charListLt, hac, hca] using h1
              by_cases hcd : c.toNat < d.toNat
              · have had : a.toNat < d.toNat := by omega
                simp [charListLt, had]
              · have hrec2 : charListLt ds cs = false := by
                  simpa [charListLt, hdc, hcd] using h2
                have had : ¬ a.toNat < d.toNat := by omega
                have hda : ¬ d.toNat < a.toNat := by omega
                simp [charListLt, had, hda, ih cs ds hrec1 hrec2]

theorem charListLt_asymm (a : List Char) : ∀ b : List Char,
    charListLt a b = true → charListLt b a = false := by
  intro b h
  cases hba : charListLt b a with
  | false => rfl
  | true =>
    have := charListLt_trans a b a h hba
    rw [charListLt_irrefl] at this
    exact absurd this (by simp)

theorem strLt_asymm (a b : String) (h : strLt a b = true) : strLt b a = false :=
  charListLt_asymm a.data b.data h

theorem strLt_irrefl (a : String) : strLt a a = false :=
  charListLt_irrefl a.data

theorem strLt_of_lt_of_nlt (x z y : String) (h1 : strLt x z = true)
    (h2 : strLt y z = false) : strLt x y = true :=
  charListLt_of_lt_of_nlt x.data z.data y.data h1 h2

theorem strLt_trans (a b c : String) (h1 : strLt a b = true) (h2 : strLt b c = true) :
    strLt a c = true :=
  charListLt_trans a.data b.data c.data h1 h2

theorem mem_insertByLastRunDesc (x y : SummaryRow) (l : List SummaryRow)
    (h : y ∈ insertByLastRunDesc x l) : y = x ∨ y ∈ l := by
  induction l with
  | nil =>
    simp [insertByLastRunDesc] at h
    exact Or.inl h
  | cons a t ih =>
    unfold insertByLastRunDesc at h
    by_cases hc : strLt a.last_run x.last_run
    · rw [if_pos hc] at h
      simp only [List.mem_cons] at h ⊢
      tauto
    · rw [if_neg hc] at h
      simp only [List.mem_cons] at h ⊢
      rcases h with h | h
      · tauto
      · rcases ih h with h2 | h2 <;> tauto

theorem pairwise_insertByLastRunDesc (x : SummaryRow) (l : List SummaryRow)
    (h : List.Pairwise (fun a b => strLt a.last_run b.last_run = false) l) :
    List.Pairwise (fun a b => strLt a.last_run b.last_run = false)
      (insertByLastRunDesc x l) := by
  induction l with
  | nil => simp [insertByLastRunDesc]
  | cons a t ih =>
    rcases List.pairwise_cons.mp h with ⟨ha, ht⟩
    unfold insertByLastRunDesc
    by_cases hc : strLt a.last_run x.last_run
    · rw [if_pos hc]
      refine List.pairwise_cons.mpr ⟨?_, h⟩
      intro y hy
      rcases List.mem_cons.mp hy with rfl | hy2
      · exact strLt_asymm _ _ hc
      · cases hxy : strLt x.last_run y.last_run with
        | false => rfl
        | true =>
          have := strLt_of_lt_of_nlt _ _ _ hxy (ha y hy2)
          rw [strLt_asymm _ _ hc] at this
          exact absurd this (by simp)
    · rw [if_neg hc]
      refine List.pairwise_cons.mpr ⟨?_, ih ht⟩
      intro y hy
      rcases mem_insertByLastRunDesc x y t hy with rfl | hy2
      · exact Bool.eq_false_iff.mpr hc
      · exact ha y hy2

theorem perm_insertByLastRunDesc (x : SummaryRow) (l : List SummaryRow) :
    (insertByLastRunDesc x l).Perm (x :: l) := by
  induction l with
  | nil => simp [insertByLastRunDesc]
  | cons a t ih =>
    unfold insertByLastRunDesc
    by_cases hc : strLt a.last_run x.last_run
    · rw [if_pos hc]
    · rw [if_neg hc]
      exact (ih.cons a).trans (List.Perm.swap x a t)

theorem perm_sortByLastRunDesc (l : List SummaryRow) : (sortByLastRunDesc l).Perm l := by
  induction l with
  | nil => simp [sortByLastRunDesc]
  | cons a t ih =>
    simp only [sortByLastRunDesc, List.foldr_cons]
    exact (perm_insertByLastRunDesc a _).trans (List.Perm.cons a ih)

theorem pairwise_sortByLastRunDesc (l : List SummaryRow) :
    List.Pairwise (fun a b => strLt a.last_run b.last_run = false) (sortByLastRunDesc l) := by
  induction l with
  | nil => simp [sortByLastRunDesc]
  | cons a t ih =>
    simp only [sortByLastRunDesc, List.foldr_cons]
    exact pairwise_insertByLastRunDesc a _ ih

theorem mem_distinctCommands_aux (ts : List TaskRow) : ∀ (acc : List String) (c : String),
    (c ∈ ts.foldl (fun acc r => if r.command ∈ acc then acc else acc ++ [r.command]) acc ↔
      c ∈ acc ∨ ∃ r ∈ ts, r.command = c) := by
  induction ts with
  | nil => intro acc c; simp
  | cons a t ih =>
    intro acc c
    simp only [List.foldl_cons]
    by_cases h : a.command ∈ acc
    · rw [if_pos h, ih]
      constructor
      · rintro (hc | ⟨r, hr, hrc⟩)
        · exact Or.inl hc
        · exact Or.inr ⟨r, List.mem_cons_of_mem a hr, hrc⟩
      · rintro (hc | ⟨r, hr, hrc⟩)
        · exact Or.inl hc
        · rcases List.mem_cons.mp hr with rfl | hr2
          · exact Or.inl (hrc ▸ h)
          · exact Or.inr ⟨r, hr2, hrc⟩
    · rw [if_neg h, ih]
      constructor
      · rintro (hc | ⟨r, hr, hrc⟩)
        · rcases List.mem_append.mp hc with hc2 | hc2
          · exact Or.inl hc2
          · refine Or.inr ⟨a, List.mem_cons_self a t, ?_⟩
            have : c = a.command := by simpa using hc2
            exact this.symm
        · exact Or.inr ⟨r, List.mem_cons_of_mem a hr, hrc⟩
      · rintro (hc | ⟨r, hr, hrc⟩)
        · exact Or.inl (List.mem_append.mpr (Or.inl hc))
        · rcases List.mem_cons.mp hr with rfl | hr2
          · exact Or.inl (List.mem_append.mpr (Or.inr (by simp [hrc])))
          · exact Or.inr ⟨r, hr2, hrc⟩

theorem mem_distinctCommands (ts : List TaskRow) (c : String) :
    c ∈ distinctCommands ts ↔ ∃ r ∈ ts, r.command = c := by
  unfold distinctCommands
  rw [mem_distinctCommands_aux]
  simp

theorem bestRow_aux (rows : List TaskRow) : ∀ b0 : TaskRow,
    ∃ b, rows.foldl bestRowStep (some b0) = some b ∧ (b = b0 ∨ b ∈ rows) ∧
      strLt b.timestamp b0.timestamp = false ∧
      ∀ r ∈ rows, strLt b.timestamp r.timestamp = false := by
  induction rows with
  | nil =>
    intro b0
    exact ⟨b0, rfl, Or.inl rfl, strLt_irrefl _, by simp⟩
  | cons a t ih =>
    intro b0
    simp only [List.foldl_cons]
    by_cases hc : strLt b0.timestamp a.timestamp
    · have hstep : bestRowStep (some b0) a = some a := by simp [bestRowStep, hc]
      rw [hstep]
      rcases ih a with ⟨b, hfold, hmem, hba, hall⟩
      refine ⟨b, hfold, ?_, ?_, ?_⟩
      · rcases hmem with rfl | h
        · exact Or.inr (List.mem_cons_self _ _)
        · exact Or.inr (List.mem_cons_of_mem a h)
      · cases hbb0 : strLt b.timestamp b0.timestamp with
        | false => rfl
        | true =>
          have hb_a : strLt b.timestamp a.timestamp = true :=
            strLt_trans _ _ _ hbb0 hc
          rw [hba] at hb_a
          exact absurd hb_a (by simp)
      · intro r hr
        rcases List.mem_cons.mp hr with rfl | hr2
        · exact hba
        · exact hall r hr2
    · have hstep : bestRowStep (some b0) a = some b0 := by simp [bestRowStep, hc]
      rw [hstep]
      rcases ih b0 with ⟨b, hfold, hmem, hle, hall⟩
      refine ⟨b, hfold, ?_, hle, ?_⟩
      · rcases hmem with rfl | h
        · exact Or.inl rfl
        · exact Or.inr (List.mem_cons_of_mem a h)
      · intro r hr
        rcases List.mem_cons.mp hr with rfl | hr2
        · cases hbr : strLt b.timestamp r.timestamp with
          | false => rfl
          | true =>
            have hbb0 : strLt b.timestamp b0.timestamp = true :=
              strLt_of_lt_of_nlt _ _ _ hbr (Bool.eq_false_iff.mpr hc)
            rw [hle] at hbb0
            exact absurd hbb0 (by simp)
        · exact hall r hr2

theorem bestRow_spec (rows : List TaskRow) (hne : rows ≠ []) :
    ∃ b, bestRow rows = some b ∧ b ∈ rows ∧
      ∀ r ∈ rows, strLt b.timestamp r.timestamp = false := by
  cases rows with
  | nil => exact absurd rfl hne
  | cons a t =>
    rcases bestRow_aux t a with ⟨b, hfold, hmem, hle, hall⟩
    refine ⟨b, ?_, ?_, ?_⟩
    · show (a :: t).foldl bestRowStep none = some b
      simpa [bestRowStep] using hfold
    · rcases hmem with rfl | h
      · exact List.mem_cons_self _ _
      · exact List.mem_cons_of_mem a h
    · intro r hr
      rcases List.mem_cons.mp hr with rfl | hr2
      · exact hle
      · exact hall r hr2

theorem summaryFor_command (ts : List TaskRow) (cmd : String) :
    (summaryFor ts cmd).command = cmd := by
  unfold summaryFor
  cases h : bestRow (ts.filter (fun r => r.command = cmd)) <;> simp [h]

theorem summaryFor_spec (ts : List TaskRow) (cmd : String)
    (hne : ts.filter (fun r => r.command = cmd) ≠ []) :
    (summaryFor ts cmd).success_count =
      (ts.filter (fun r => r.command = cmd)).countP (fun r => r.status = "Success") ∧
    (summaryFor ts cmd).failure_count =
      (ts.filter (fun r => r.command = cmd)).countP (fun r => r.status = "Failure") ∧
    (∃ r ∈ ts.filter (fun r => r.command = cmd),
      r.timestamp = (summaryFor ts cmd).last_run ∧
      r.task_uid = (summaryFor ts cmd).task_uid ∧
      r.output = (summaryFor ts cmd).output) ∧
    ∀ r ∈ ts.filter (fun r => r.command = cmd),
      strLt (summaryFor ts cmd).last_run r.timestamp = false := by
  rcases bestRow_spec _ hne with ⟨b, hb, hbmem, hball⟩
  simp only [summaryFor, hb]
  refine ⟨trivial, trivial, ?_, ?_⟩
  · exact ⟨b, hbmem, rfl, rfl, rfl⟩
  · exact hball

/-- C5 counterexample: the query orders groups and picks `MAX(timestamp)`
on the stored TEXT timestamp in day-month-year layout, which is not
chronological order.  With two runs of command `"c"` finishing on
02 Jan 2026 and 01 Feb 2026, the summary reports
`last_run = "02-01-2026 ..."` although the `"01-02-2026 ..."` run is
chronologically later; and with two commands finishing in that order the
summary lists the chronologically older one first. -/
theorem summarize_lexicographic_counterexample :
    (summarize [⟨1, "u1", "c", "02-01-2026 00:00:00", "Success", ""⟩,
        ⟨2, "u2", "c", "01-02-2026 00:00:00", "Success", ""⟩]).map (fun e => e.last_run) =
      ["02-01-2026 00:00:00"] ∧
    chronoVal "02-01-2026 00:00:00" < chronoVal "01-02-2026 00:00:00" ∧
    (summarize [⟨1, "u1", "a", "02-01-2026 00:00:00", "Success", ""⟩,
        ⟨2, "u2", "b", "01-02-2026 00:00:00", "Success", ""⟩]).map (fun e => e.command) =
      ["a", "b"] := by decide

/-- C5 amended: `summarize` returns exactly one entry per distinct
command text; each entry's `success_count` and `failure_count` count that
command's Success and Failure records, its `last_run` is the maximum of
the command's timestamps in the BINARY TEXT order of the stored
`"DD-MM-YYYY hh:mm:ss"` strings (attained by one of its records, from
which the bare columns `task_uid` and `output` are also taken), and the
sequence is ordered by `last_run` descending in that same TEXT order —
which agrees with chronological order only within a calendar month. -/
theorem summarize_groups_and_orders_by_text (ts : List TaskRow) :
    ((summarize ts).map (fun e => e.command)).Perm (distinctCommands ts) ∧
    List.Pairwise (fun a b => strLt a.last_run b.last_run = false) (summarize ts) ∧
    ∀ e ∈ summarize ts,
      e.success_count = (ts.filter (fun r => r.command = e.command)).countP
        (fun r => r.status = "Success") ∧
      e.failure_count = (ts.filter (fun r => r.command = e.command)).countP
        (fun r => r.status = "Failure") ∧
      (∃ r ∈ ts, r.command = e.command ∧ r.timestamp = e.last_run ∧
        r.task_uid = e.task_uid ∧ r.output = e.output) ∧
      ∀ r ∈ ts, r.command = e.command → strLt e.last_run r.timestamp = false := by
  have hperm : (summarize ts).Perm ((distinctCommands ts).map (summaryFor ts)) :=
    perm_sortByLastRunDesc _
  refine ⟨?_, ?_, ?_⟩
  · have h2 : ((distinctCommands ts).map (summaryFor ts)).map (fun e => e.command) =
        distinctCommands ts := by
      rw [List.map_map]
      have hcong : ∀ c ∈ distinctCommands ts,
          ((fun e => e.command) ∘ summaryFor ts) c = id c := by
        intro c _
        simp [summaryFor_command]
      rw [List.map_congr_left hcong, List.map_id]
    rw [← h2]
    exact hperm.map (fun e => e.command)
  · exact pairwise_sortByLastRunDesc _
  · intro e he
    have he2 : e ∈ (distinctCommands ts).map (summaryFor ts) := hperm.subset he
    rcases List.mem_map.mp he2 with ⟨cmd, hcmd, rfl⟩
    rcases (mem_distinctCommands ts cmd).mp hcmd with ⟨r0, hr0, hr0c⟩
    have hne : ts.filter (fun r => r.command = cmd) ≠ [] := by
      intro hempty
      have hr0f : r0 ∈ ts.filter (fun r => r.command = cmd) :=
        List.mem_filter.mpr ⟨hr0, by simp [hr0c]⟩
      rw [hempty] at hr0f
      simp at hr0f
    rcases summaryFor_spec ts cmd hne with ⟨hs, hf, ⟨rb, hrb, hrbts, hrbuid, hrbout⟩, hall⟩
    rw [summaryFor_command ts cmd]
    refine ⟨hs, hf, ?_, ?_⟩
    · rcases List.mem_filter.mp hrb with ⟨hrbmem, hrbcmd⟩
      exact ⟨rb, hrbmem, by simpa using hrbcmd, hrbts, hrbuid, hrbout⟩
    · intro r hr hrc
      exact hall r (List.mem_filter.mpr ⟨hr, by simp [hrc]⟩)

theorem runSink_session {α : Type} (tr : List (SinkEvent α)) : ∀ (t : Nat) (f f1 : List α),
    runSink (some t, f) tr = some (none, f1) →
    ∃ (cs : List α) (rest : List (SinkEvent α)),
      tr = cs.map (SinkEvent.write t) ++ SinkEvent.release t :: rest ∧
      runSink (none, f ++ cs) rest = some (none, f1) := by
  induction tr with
  | nil =>
    intro t f f1 h
    simp [runSink] at h
  | cons e es ih =>
    intro t f f1 h
    cases e with
    | acquire u => simp [runSink, sinkStep] at h
    | write u c =>
      by_cases hu : u = t
      · subst hu
        have h2 : runSink (some u, f ++ [c]) es = some (none, f1) := by
          simpa [runSink, sinkStep] using h
        rcases ih u (f ++ [c]) f1 h2 with ⟨cs, rest, hes, hrun⟩
        refine ⟨c :: cs, rest, ?_, ?_⟩
        · simp [hes]
        · simpa [List.append_assoc] using hrun
      · simp [runSink, sinkStep, hu] at h
    | release u =>
      by_cases hu : u = t
      · subst hu
        have h2 : runSink (none, f) es = some (none, f1) := by
          simpa [runSink, sinkStep] using h
        exact ⟨[], es, by simp, by simpa using h2⟩
      · simp [runSink, sinkStep, hu] at h

theorem runSink_sessions_aux {α : Type} (n : Nat) : ∀ (tr : List (SinkEvent α)),
    tr.length ≤ n → ∀ (f f1 : List α), runSink (none, f) tr = some (none, f1) →
    ∃ ss : List (Nat × List α), tr = sessionsTrace ss ∧
      f1 = f ++ (ss.map (fun s => s.2)).flatten := by
  induction n with
  | zero =>
    intro tr hlen f f1 h
    have htr : tr = [] := List.length_eq_zero.mp (Nat.le_zero.mp hlen)
    subst htr
    have hf : f = f1 := by simpa [runSink] using h
    exact ⟨[], by simp [sessionsTrace], by simp [hf]⟩
  | succ n ih =>
    intro tr hlen f f1 h
    cases tr with
    | nil =>
      have hf : f = f1 := by simpa [runSink] using h
      exact ⟨[], by simp [sessionsTrace], by simp [hf]⟩
    | cons e es =>
      cases e with
      | acquire t =>
        have h2 : runSink (some t, f) es = some (none, f1) := by
          simpa [runSink, sinkStep] using h
        rcases runSink_session es t f f1 h2 with ⟨cs, rest, hes, hrun⟩
        have hrestlen : rest.length ≤ n := by
          have h3 : es.length = cs.length + (rest.length + 1) := by
            rw [hes]
            simp
          have h4 : es.length + 1 ≤ n + 1 := by simpa using hlen
          omega
        rcases ih rest hrestlen (f ++ cs) f1 hrun with ⟨ss, hrest, hf1⟩
        refine ⟨(t, cs) :: ss, ?_, ?_⟩
        · simp [sessionsTrace, sessionTrace, hes, hrest]
        · simp [hf1, List.append_assoc]
      | write t c => simp [runSink, sinkStep] at h
      | release t => simp [runSink, sinkStep] at h

/-- C9: under the discipline of the one global mutex `mu` — every sink
write of `logJobStatus` (a log-file line) and of `logJobStatusToDB` (a
tasks-table row) happens while holding it — every lock-respecting event
trace of concurrently recording threads decomposes into whole
acquire-write-release sessions, and the final sink contents are exactly
the concatenation of the complete per-session payloads in lock
acquisition order: writes to the same log file or the same table never
interleave to produce partial lines or rows. -/
theorem mutex_serializes_sink_writes {α : Type} (tr : List (SinkEvent α)) (f0 f1 : List α)
    (h : runSink (none, f0) tr = some (none, f1)) :
    ∃ ss : List (Nat × List α), tr = sessionsTrace ss ∧
      f1 = f0 ++ (ss.map (fun s => s.2)).flatten :=
  runSink_sessions_aux tr.length tr (Nat.le_refl _) f0 f1 h

/-- Witness for C9: two recorder threads, each appending its own log
line under the mutex; the final file is the two whole lines in
acquisition order. -/
theorem mutex_serializes_sink_writes_witness :
    runSink (none, ([] : List String))
      [SinkEvent.acquire 0, SinkEvent.write 0 "lineA\n", SinkEvent.release 0,
        SinkEvent.acquire 1, SinkEvent.write 1 "lineB\n", SinkEvent.release 1] =
      some (none, ["lineA\n", "lineB\n"]) ∧
    ∃ ss : List (Nat × List String),
      [SinkEvent.acquire 0, SinkEvent.write 0 "lineA\n", SinkEvent.release 0,
        SinkEvent.acquire 1, SinkEvent.write 1 "lineB\n", SinkEvent.release 1] =
        sessionsTrace ss ∧
      ["lineA\n", "lineB\n"] = [] ++ (ss.map (fun s => s.2)).flatten :=
  ⟨by decide, mutex_serializes_sink_writes _ _ _ (by decide)⟩

end GTaskScheduler
